import Mathlib

/-!
Verification of the felix gene-metadata extraction pipeline.

Shallow embedding of the repository's validators (`src/felix/validators.py`,
`parser.py`), the document-construction control flow (`parser.py`,
`Document.__init__`), the CLI entry points (`main.py`, `src/felix/cli.py`),
the gene/disease co-occurrence extractor
(`NLPAnalysis.extract_genes_and_diseases`) and the metadata resolver
(`NLPAnalysis.fetch_gene_metadata`).

External collaborators (the NLP engine, the article-retrieval service and the
two metadata registries) are modelled as inputs: the extractor receives the
NLP engine's sentence/entity output, the resolver receives the two registries'
decoded JSON responses as oracle functions.
-/

/-! ## Email validator: `validate_email`, regex `^[^@\s]+@[^@\s]+\.[^@\s]+$` -/

/-- Python's regex `\s` class for `str` patterns (Unicode whitespace). -/
def pyWhitespace (c : Char) : Bool :=
  c == ' ' || c == '\t' || c == '\n' || c == '\r' ||
  c.toNat == 0xb || c.toNat == 0xc ||
  (0x1c ≤ c.toNat && c.toNat ≤ 0x1f) || c.toNat == 0x85 || c.toNat == 0xa0 ||
  c.toNat == 0x1680 || (0x2000 ≤ c.toNat && c.toNat ≤ 0x200a) ||
  c.toNat == 0x2028 || c.toNat == 0x2029 || c.toNat == 0x202f ||
  c.toNat == 0x205f || c.toNat == 0x3000

/-- The character class `[^@\s]` of `EMAIL_RE`. -/
def okChar (c : Char) : Bool :=
  !(c == '@') && !(pyWhitespace c)

/-- Split a character list at the first occurrence of `target`:
`some (before, after)` when present, `none` otherwise. -/
def splitAtFirst (target : Char) : List Char → Option (List Char × List Char)
  | [] => none
  | c :: cs =>
    if c = target then some ([], cs)
    else
      match splitAtFirst target cs with
      | none => none
      | some (l, r) => some (c :: l, r)

/-- Does the list contain a `'.'` that is neither its first nor its last
element?  This is exactly when `[^@\s]+\.[^@\s]+` can place its `\.`,
given that all characters already lie in the class. -/
def innerDot : List Char → Bool
  | [] => false
  | [_] => false
  | _ :: c :: cs => (c == '.' && !cs.isEmpty) || innerDot (c :: cs)

/-- `EMAIL_RE.fullmatch`: the string is `l @ r` where `l` is a nonempty run of
`[^@\s]` characters (hence the `@` matched is the first one), and `r` matches
`[^@\s]+\.[^@\s]+`. -/
def emailOk (cs : List Char) : Bool :=
  match splitAtFirst '@' cs with
  | none => false
  | some (l, r) => !l.isEmpty && l.all okChar && r.all okChar && innerDot r

/-- `validate_email` from `src/felix/validators.py` (identical to
`Document.validate_email` in `parser.py`): raises `ValueError` unless the
regex fullmatches. -/
def validate_email (email : String) : Except String Unit :=
  if emailOk email.toList then Except.ok ()
  else Except.error ("Invalid email format: " ++ email)

/-! ## PMC-id validator: `validate_pmc_id` -/

/-- `VALID_PMC_ID_CHARS`: the ten digits together with `P`, `M`, `C`. -/
def validChar (c : Char) : Bool :=
  c.isDigit || c == 'P' || c == 'M' || c == 'C'

/-- `pmc_id.startswith("PMC")`. -/
def startsWithPMC : List Char → Bool
  | a :: b :: c :: _ => a == 'P' && b == 'M' && c == 'C'
  | _ => false

/-- Python `str.isdigit` restricted to ASCII inputs: nonempty and all digits
(`"".isdigit()` is `False`). -/
def pyIsDigit (s : List Char) : Bool :=
  !s.isEmpty && s.all Char.isDigit

/-- The three checks of `validate_pmc_id`, applied to the already-uppercased
character list (the `Document` variant validates `self.raw_pmc_id`, which
`__init__` has uppercased; the `validators.py` variant uppercases itself). -/
def checkPmcUpper (s : List Char) : Except String Unit :=
  if !(s.all validChar) then
    Except.error ("Invalid characters in PMC ID: " ++ String.mk s)
  else if startsWithPMC s && !(pyIsDigit (s.drop 3)) then
    Except.error ("PMC ID is incorrectly formatted: " ++ String.mk s)
  else if !(startsWithPMC s) && !(s.all Char.isDigit) then
    Except.error ("PMC ID is incorrectly formatted: " ++ String.mk s)
  else Except.ok ()

/-- `validate_pmc_id` from `src/felix/validators.py`: uppercase, then run the
three checks. -/
def validate_pmc_id (pmc_id : String) : Except String Unit :=
  checkPmcUpper (pmc_id.toList.map Char.toUpper)

/-! ## `Document.__init__` control flow (`parser.py`) and `main` (`main.py`) -/

/-- Network activity of a run. `articleFetch` is the Entrez `efetch` call in
`Document.fetch_pmc_xml`; `registryQueries` stands for the whole
HGNC/mygene query phase performed by `fetch_gene_metadata`. -/
inductive NetEvent where
  | articleFetch
  | registryQueries
deriving DecidableEq

/-- `raw_pmc_id.removeprefix("PMC")`. -/
def stripPMC : List Char → List Char
  | 'P' :: 'M' :: 'C' :: rest => rest
  | s => s

/-- Python `int(s)` on a post-validation id suffix: succeeds exactly on a
nonempty digit string. -/
def pyInt (s : List Char) : Option Nat :=
  if !s.isEmpty && s.all Char.isDigit then
    some (s.foldl (fun n c => 10 * n + (c.toNat - 48)) 0)
  else none

/-- `Document.__init__`: store the email, uppercase the id, run
`validate_email` then `validate_pmc_id`, convert the suffix with `int`, and
only then fetch the article XML over the network.  Returns the network trace
together with the numeric id (or the first raised error).  The post-fetch
parsing steps are pure and omitted. -/
def documentInit (pmc_id email : String) : List NetEvent × Except String Nat :=
  let raw := pmc_id.toList.map Char.toUpper
  match validate_email email with
  | Except.error e => ([], Except.error e)
  | Except.ok _ =>
    match checkPmcUpper raw with
    | Except.error e => ([], Except.error e)
    | Except.ok _ =>
      match pyInt (stripPMC raw) with
      | none =>
        ([], Except.error ("invalid literal for int() with base 10: " ++ String.mk (stripPMC raw)))
      | some n => ([NetEvent.articleFetch], Except.ok n)

/-- Control flow of `main` in `main.py`: construct the `Document` (which
validates and fetches), and only if that succeeds run the extraction and the
registry-query phase.  An uncaught exception aborts the run (`some` error). -/
def mainRun (pmc_id email : String) : List NetEvent × Option String :=
  match documentInit pmc_id email with
  | (ev, Except.error e) => (ev, some e)
  | (ev, Except.ok _) => (ev ++ [NetEvent.registryQueries], none)

/-! ## CLI variant with optional `--output` (`src/felix/cli.py`) -/

/-- Where the report is written. `main` only ever opens the path built from
`args.output`; no standard-output branch exists in the code. -/
inductive CliOutcome where
  | writeFile (path : String)
  | writeStdout
deriving DecidableEq

/-- `Path(args.output)`: `argparse` yields `None` when the optional flag is
omitted, and `Path(None)` raises `TypeError`. -/
def pathOfArg : Option String → Except String String
  | none => Except.error "TypeError: argument should be a str or an os.PathLike object where __fspath__ returns a str, not <class 'NoneType'>"
  | some s => Except.ok s

/-- Control flow of `main` in `src/felix/cli.py` up to the point the output
destination is determined: build `Path(args.output)` (and `mkdir` its
parent), then `validate_pmc_id`, then `validate_email`, then proceed to
write the report to the file. -/
def cliMain (pmc_id email : String) (output : Option String) : Except String CliOutcome :=
  match pathOfArg output with
  | Except.error e => Except.error e
  | Except.ok p =>
    match validate_pmc_id pmc_id with
    | Except.error e => Except.error e
    | Except.ok _ =>
      match validate_email email with
      | Except.error e => Except.error e
      | Except.ok _ => Except.ok (CliOutcome.writeFile p)

/-! ## `NLPAnalysis.extract_genes_and_diseases` (`parser.py`)

The NLP engine (sentence segmentation and named-entity recognition) is an
external collaborator; its output is modelled as a list of sentences, each
carrying its text and its recognized entities.  The in-repo regex
`HGNC:\d+` (`re.findall`) is implemented directly. -/

/-- A named entity recognized by the NLP model (`ent.text`, `ent.label_`). -/
structure Ent where
  text : String
  label : String
deriving DecidableEq

/-- One sentence of the NLP document: its text and its entities. -/
structure Sentence where
  text : String
  ents : List Ent
deriving DecidableEq

/-- Longest digit prefix and the remainder (the greedy `\d+`). -/
def takeDigits : List Char → List Char × List Char
  | [] => ([], [])
  | c :: cs =>
    if c.isDigit then
      let p := takeDigits cs
      (c :: p.1, p.2)
    else ([], c :: cs)

/-- `re.findall(r"HGNC:\d+", text)`: scan left to right; at a match consume
the prefix `HGNC:` plus the maximal digit run and continue after it
(non-overlapping), otherwise advance one character.  The fuel argument is an
upper bound on the number of scanning steps; each step strictly shortens the
list, so `l.length` fuel always suffices. -/
def findHGNCAux : Nat → List Char → List String
  | 0, _ => []
  | fuel + 1, l =>
    match l with
    | 'H' :: 'G' :: 'N' :: 'C' :: ':' :: d :: rest =>
      if d.isDigit then
        String.mk ('H' :: 'G' :: 'N' :: 'C' :: ':' :: d :: (takeDigits rest).1)
          :: findHGNCAux fuel (takeDigits rest).2
      else findHGNCAux fuel ('G' :: 'N' :: 'C' :: ':' :: d :: rest)
    | _ :: cs => findHGNCAux fuel cs
    | [] => []

/-- All matches of `HGNC_PATTERN` in a string. -/
def findHGNC (s : String) : List String :=
  findHGNCAux s.toList.length s.toList

/-- The HGNC ids found in one sentence (`re.findall(self.HGNC_PATTERN, sent.text)`). -/
def sentenceIds (s : Sentence) : List String :=
  findHGNC s.text

/-- `{ent.text for ent in sent.ents if ent.label_ == "DISEASE"}` (as a list;
deduplication happens on insertion into the accumulator). -/
def sentDiseases (s : Sentence) : List String :=
  (s.ents.filter (fun e => e.label == "DISEASE")).map Ent.text

/-- Insert into a duplicate-free list modelling a Python `set`. -/
def setInsert (s : List String) (x : String) : List String :=
  if x ∈ s then s else s ++ [x]

/-- `s.update(t)` on the set model. -/
def setUnion (s t : List String) : List String :=
  t.foldl setInsert s

/-- `hgnc_disease_map[k].update(ds)` on a `defaultdict(set)` modelled as an
insertion-ordered association list: update the entry in place, or append a
fresh key (whose default `set()` is then updated with `ds`). -/
def updateKey : List (String × List String) → String → List String → List (String × List String)
  | [], k, ds => [(k, setUnion [] ds)]
  | (k', v) :: m, k, ds =>
    if k' = k then (k', setUnion v ds) :: m
    else (k', v) :: updateKey m k ds

/-- First value stored under a key. -/
def lookupKey : List (String × List String) → String → Option (List String)
  | [], _ => none
  | (k', v) :: m, k => if k' = k then some v else lookupKey m k

/-- The keys of the accumulator, in insertion order. -/
def keysOf (m : List (String × List String)) : List String :=
  m.map Prod.fst

/-- The body of the sentence loop: skip sentences without HGNC ids, otherwise
union the sentence's disease set into every found id's accumulator entry. -/
def processSentence (m : List (String × List String)) (s : Sentence) : List (String × List String) :=
  let ids := sentenceIds s
  if ids.isEmpty then m
  else ids.foldl (fun acc i => updateKey acc i (sentDiseases s)) m

/-- The fully accumulated `hgnc_disease_map`. -/
def buildMap (sents : List Sentence) : List (String × List String) :=
  sents.foldl processSentence []

/-- The results loop: one `(id, d)` pair per accumulated disease, or a single
`(id, "")` pair when the id's disease set stayed empty. -/
def flattenMap : List (String × List String) → List (String × String)
  | [] => []
  | (k, ds) :: m =>
    (if ds.isEmpty then [(k, "")] else ds.map (fun d => (k, d))) ++ flattenMap m

/-- `NLPAnalysis.extract_genes_and_diseases`, from the NLP engine's sentence
output onward. -/
def extract_genes_and_diseases (sents : List Sentence) : List (String × String) :=
  flattenMap (buildMap sents)

/-- The identifier occurs in some sentence of the document. -/
def occursIn (sents : List Sentence) (i : String) : Prop :=
  ∃ s ∈ sents, i ∈ sentenceIds s

/-- Some sentence contains the identifier together with this disease entity:
the disease belongs to the union, over all sentences containing the
identifier, of the sentences' recognized disease sets. -/
def pairedIn (sents : List Sentence) (i d : String) : Prop :=
  ∃ s ∈ sents, i ∈ sentenceIds s ∧ d ∈ sentDiseases s

/-! ## `NLPAnalysis.fetch_gene_metadata` (`parser.py`)

The two registries are external collaborators; their decoded JSON responses
are supplied as oracle functions.  `hgncDocs i` models
`response["response"]["docs"]` of the HGNC fetch for id `i`; `mygeneHits i`
models `response["hits"]` of the mygene query. -/

/-- A JSON scalar appearing in a coordinate field. -/
inductive JVal where
  | s (v : String)
  | n (v : Int)
deriving DecidableEq

/-- The JSON value stored under `alias_symbol`: a single string or a list. -/
inductive AliasVal where
  | one (s : String)
  | many (l : List String)
deriving DecidableEq

/-- One genomic-position object; absent keys are `none`
(`coord.get(key, "")`). -/
structure Coord where
  chr : Option JVal
  start : Option JVal
  «end» : Option JVal
  strand : Option JVal
deriving DecidableEq

/-- The JSON value stored under a `genomic_pos` key: a single object or a
list of objects (`isinstance(x, list)`). -/
inductive GenCoords where
  | one (c : Coord)
  | many (cs : List Coord)
deriving DecidableEq

/-- One HGNC registry document; `none` models an absent key
(`gene_record.get(...)`). -/
structure HgncDoc where
  symbol : Option String
  name : Option String
  alias_symbol : Option AliasVal
  ensembl_gene_id : Option String
deriving DecidableEq

/-- One mygene hit; `none` models an absent key, which the code reads with
`mygene_record["..."]` and hence raises `KeyError` on. -/
structure MyGeneHit where
  genomic_pos : Option GenCoords
  genomic_pos_hg19 : Option GenCoords
deriving DecidableEq

/-- One output row (the 11-tuple appended to `res`). -/
structure Row where
  chrom : JVal
  start : JVal
  «end» : JVal
  strand : JVal
  assembly : String
  hgnc_id : String
  symbol : Option String
  name : Option String
  «alias» : String
  ensembl : Option String
  disease : String
deriving DecidableEq

/-- `gene_record.get("alias_symbol", "")` followed by the
`isinstance(..., str)` coercion: an absent key yields the one-element list
`[""]`, a single string is wrapped, a list is kept. -/
def normAlias : Option AliasVal → List String
  | none => [""]
  | some (AliasVal.one s) => [s]
  | some (AliasVal.many l) => l

/-- The `isinstance(..., list)` coercion of a coordinate value. -/
def normCoords : GenCoords → List Coord
  | GenCoords.one c => [c]
  | GenCoords.many cs => cs

/-- The two nested row loops for one assembly: one row per
(coordinate entry, alias) pair. -/
def mkRows (assembly : String) (coords : List Coord) (aliases : List String)
    (hgnc_id : String) (symbol name : Option String) (ensembl : Option String)
    (disease : String) : List Row :=
  coords.flatMap fun coord =>
    aliases.map fun a =>
      { chrom := coord.chr.getD (JVal.s "")
        start := coord.start.getD (JVal.s "")
        «end» := coord.«end».getD (JVal.s "")
        strand := coord.strand.getD (JVal.s "")
        assembly := assembly
        hgnc_id := hgnc_id
        symbol := symbol
        name := name
        «alias» := a
        ensembl := ensembl
        disease := disease }

/-- The loop body of `fetch_gene_metadata` for one `(hgnc_id, disease)`
record: skip silently unless both registries answered; read the two
coordinate keys with `[...]` (KeyError on absence); normalize aliases and
coordinates; emit the hg38 rows then the hg19 rows. -/
def processRecord (hgncDocs : String → List HgncDoc)
    (mygeneHits : String → List MyGeneHit) (record : String × String) :
    Except String (List Row) :=
  match hgncDocs record.1, mygeneHits record.1 with
  | gene_record :: _, mygene_record :: _ =>
    match mygene_record.genomic_pos with
    | none => Except.error "KeyError: genomic_pos"
    | some p38 =>
      match mygene_record.genomic_pos_hg19 with
      | none => Except.error "KeyError: genomic_pos_hg19"
      | some p19 =>
        let aliases := normAlias gene_record.alias_symbol
        Except.ok
          (mkRows "hg38" (normCoords p38) aliases record.1 gene_record.symbol
              gene_record.name gene_record.ensembl_gene_id record.2 ++
            mkRows "hg19" (normCoords p19) aliases record.1 gene_record.symbol
              gene_record.name gene_record.ensembl_gene_id record.2)
  | _, _ => Except.ok []

/-- `NLPAnalysis.fetch_gene_metadata`: process the records in order,
concatenating their rows; an uncaught `KeyError` aborts the whole loop. -/
def fetch_gene_metadata (hgncDocs : String → List HgncDoc)
    (mygeneHits : String → List MyGeneHit) :
    List (String × String) → Except String (List Row)
  | [] => Except.ok []
  | r :: rest =>
    match processRecord hgncDocs mygeneHits r with
    | Except.error e => Except.error e
    | Except.ok rows =>
      match fetch_gene_metadata hgncDocs mygeneHits rest with
      | Except.error e => Except.error e
      | Except.ok more => Except.ok (rows ++ more)


/-- Sample registry data used to instantiate the resolver theorems. -/
def demoDoc : HgncDoc :=
  { symbol := some "BRCA2", name := some "BRCA2 DNA repair associated",
    alias_symbol := some (AliasVal.many ["FACD", "FAD"]),
    ensembl_gene_id := some "ENSG00000139618" }

def demoCoord : Coord :=
  { chr := some (JVal.s "13"), start := some (JVal.n 32315086),
    «end» := some (JVal.n 32400268), strand := some (JVal.n 1) }

def demoHit : MyGeneHit :=
  { genomic_pos := some (GenCoords.many [demoCoord]),
    genomic_pos_hg19 := some (GenCoords.many []) }

def demoHitNoHg19 : MyGeneHit :=
  { genomic_pos := some (GenCoords.many [demoCoord]), genomic_pos_hg19 := none }

def demoDocNoAlias : HgncDoc :=
  { symbol := some "BRCA2", name := some "BRCA2 DNA repair associated",
    alias_symbol := none, ensembl_gene_id := some "ENSG00000139618" }

/-- Invariant tying the accumulator to the sentences processed so far:
keys are exactly the identifiers seen, values are duplicate-free and are
exactly the diseases co-occurring with the key. -/
def MapInv (sents : List Sentence) (m : List (String × List String)) : Prop :=
  (keysOf m).Nodup ∧
  (∀ i, (∃ ds, lookupKey m i = some ds) ↔ occursIn sents i) ∧
  (∀ i ds, lookupKey m i = some ds → ds.Nodup) ∧
  (∀ i ds, lookupKey m i = some ds → ∀ d, (d ∈ ds ↔ pairedIn sents i d))

/-! ## Lemmas about the email validator -/

theorem splitAtFirst_not_mem {t : Char} {cs : List Char} (h : t ∉ cs) :
    splitAtFirst t cs = none := by
  induction cs with
  | nil => rfl
  | cons c cs ih =>
    simp only [List.mem_cons, not_or] at h
    simp only [splitAtFirst, if_neg (Ne.symm h.1), ih h.2]

theorem splitAtFirst_append {t : Char} {l : List Char} (r : List Char)
    (h : t ∉ l) : splitAtFirst t (l ++ t :: r) = some (l, r) := by
  induction l with
  | nil => simp [splitAtFirst]
  | cons c cs ih =>
    simp only [List.mem_cons, not_or] at h
    simp only [List.cons_append, splitAtFirst, if_neg (Ne.symm h.1)]
    rw [show cs.append (t :: r) = cs ++ t :: r from rfl, ih h.2]

theorem innerDot_append {d : List Char} (t : List Char) (hd : d ≠ [])
    (ht : t ≠ []) : innerDot (d ++ '.' :: t) = true := by
  induction d with
  | nil => exact absurd rfl hd
  | cons c cs ih =>
    cases cs with
    | nil =>
      simp only [List.cons_append, List.nil_append, innerDot, Bool.or_eq_true,
        Bool.and_eq_true, beq_self_eq_true, true_and]
      left
      simpa using ht
    | cons c' cs' =>
      have := ih (by simp)
      simp only [List.cons_append] at this ⊢
      simp only [innerDot, Bool.or_eq_true] at this ⊢
      right
      exact this

theorem mem_of_innerDot {r : List Char} (h : innerDot r = true) : '.' ∈ r := by
  induction r with
  | nil => simp [innerDot] at h
  | cons c cs ih =>
    cases cs with
    | nil => simp [innerDot] at h
    | cons c' cs' =>
      simp only [innerDot, Bool.or_eq_true, Bool.and_eq_true, beq_iff_eq] at h
      rcases h with ⟨h1, _⟩ | h2
      · simp [h1]
      · exact List.mem_cons_of_mem _ (ih h2)

theorem okChar_ne_at {l : List Char} (h : l.all okChar = true) : '@' ∉ l := by
  intro hm
  have := List.all_eq_true.mp h '@' hm
  simp [okChar] at this

/-- C6: the email validator accepts every `local@domain.tld` string — a
nonempty `@`-free whitespace-free local part, an `@`, and a domain part that
is `@`-free and whitespace-free with an interior `.` — and it fails for every
string with no `@` at all and for every string whose domain part (everything
after the first `@`) contains no `.`. -/
theorem validate_email_spec :
    (∀ l d t : List Char, l ≠ [] →
      l.all okChar = true → d.all okChar = true → t.all okChar = true →
      d ≠ [] → t ≠ [] →
      validate_email (String.mk (l ++ '@' :: (d ++ '.' :: t))) = Except.ok ()) ∧
    (∀ s : String, '@' ∉ s.toList →
      validate_email s = Except.error ("Invalid email format: " ++ s)) ∧
    (∀ (s : String) (l r : List Char), splitAtFirst '@' s.toList = some (l, r) →
      '.' ∉ r → validate_email s = Except.error ("Invalid email format: " ++ s)) := by
  refine ⟨?_, ?_, ?_⟩
  · intro l d t hl hlok hdok htok hd ht
    have hat : '@' ∉ l := okChar_ne_at hlok
    have hsplit : splitAtFirst '@' (l ++ '@' :: (d ++ '.' :: t)) = some (l, d ++ '.' :: t) :=
      splitAtFirst_append _ hat
    simp [validate_email, emailOk, hsplit, hl, hlok, List.all_append, hdok,
      htok, innerDot_append _ hd ht, List.all_cons, okChar,
      show pyWhitespace '.' = false from rfl]
  · intro s hs
    have h2 : splitAtFirst '@' s.data = none := splitAtFirst_not_mem hs
    simp [validate_email, emailOk, h2]
  · intro s l r hsplit hdot
    have hid : innerDot r = false := by
      cases hinner : innerDot r with
      | false => rfl
      | true => exact absurd (mem_of_innerDot hinner) hdot
    have h2 : splitAtFirst '@' s.data = some (l, r) := hsplit
    simp [validate_email, emailOk, h2, hid]

theorem validate_email_spec_witness :
    validate_email (String.mk ("users".toList ++ '@' :: ("gmail".toList ++ '.' :: "com".toList))) = Except.ok () ∧
    validate_email "missingat.com" = Except.error ("Invalid email format: " ++ "missingat.com") ∧
    validate_email "a@bcom" = Except.error ("Invalid email format: " ++ "a@bcom") :=
  ⟨validate_email_spec.1 "users".toList "gmail".toList "com".toList (by decide)
      (by decide) (by decide) (by decide) (by decide) (by decide),
    validate_email_spec.2.1 "missingat.com" (by decide),
    validate_email_spec.2.2 "a@bcom" "a".toList "bcom".toList (by decide) (by decide)⟩

/-! ## Lemmas about the PMC-id validator -/

theorem toUpper_of_isDigit {c : Char} (h : c.isDigit = true) : c.toUpper = c := by
  simp only [Char.isDigit, Bool.and_eq_true, decide_eq_true_eq] at h
  have h2 : c.toNat ≤ 57 := h.2
  unfold Char.toUpper
  rw [if_neg]
  omega

theorem map_toUpper_of_digits {s : List Char} (h : s.all Char.isDigit = true) :
    s.map Char.toUpper = s := by
  induction s with
  | nil => rfl
  | cons c cs ih =>
    simp only [List.all_cons, Bool.and_eq_true] at h
    simp [toUpper_of_isDigit h.1, ih h.2]

theorem startsWithPMC_of_digits {s : List Char} (h : s.all Char.isDigit = true) :
    startsWithPMC s = false := by
  match s with
  | [] => rfl
  | [_] => rfl
  | [_, _] => rfl
  | a :: b :: c :: rest =>
    simp only [List.all_cons, Bool.and_eq_true] at h
    have ha : a ≠ 'P' := by
      intro hEq
      rw [hEq] at h
      simp at h
    simp [startsWithPMC, ha]

/-- `checkPmcUpper` succeeds exactly when all three checks pass. -/
theorem checkPmcUpper_ok_iff {s : List Char} :
    checkPmcUpper s = Except.ok () ↔
      (s.all validChar = true ∧
        (startsWithPMC s = true → pyIsDigit (s.drop 3) = true) ∧
        (startsWithPMC s = false → s.all Char.isDigit = true)) := by
  unfold checkPmcUpper
  rcases h1 : s.all validChar <;> rcases h2 : startsWithPMC s <;>
    rcases h3 : pyIsDigit (s.drop 3) <;> rcases h4 : s.all Char.isDigit <;>
    simp [h1, h2, h3, h4]

/-- `checkPmcUpper` either succeeds or raises. -/
theorem checkPmcUpper_ok_or_error (s : List Char) :
    checkPmcUpper s = Except.ok () ∨ ∃ e, checkPmcUpper s = Except.error e := by
  unfold checkPmcUpper
  rcases h1 : s.all validChar <;> rcases h2 : startsWithPMC s <;>
    rcases h3 : pyIsDigit (s.drop 3) <;> rcases h4 : s.all Char.isDigit <;>
    simp [h1, h2, h3, h4]

/-- C9: the identifier validator accepts the empty string: both checks hold
vacuously ("" has only allowed characters, and `all(char.isdigit() ...)` over
no characters is `True`), so no error is raised. -/
theorem validate_pmc_id_empty : validate_pmc_id "" = Except.ok () := rfl

/-- C4 fails as stated: "pmc123" contains the character 'p', which lies
outside `{digits, P, M, C}` (the set `VALID_PMC_ID_CHARS` of the source), yet
the validator accepts it, because it uppercases the string before checking. -/
theorem validate_pmc_id_lowercase_accepted :
    (∃ c ∈ "pmc123".toList, validChar c = false) ∧
      validate_pmc_id "pmc123" = Except.ok () :=
  ⟨by decide, rfl⟩

/-- C4 (amended): after uppercasing — which is how the validator actually
checks — it accepts every all-digit string and every string whose uppercasing
is `PMC` followed by one or more digits; and it fails for every string whose
uppercasing contains a character outside `{digits, P, M, C}`, every string
whose uppercasing starts with `PMC` with a suffix that is not a nonempty
digit string, and every string whose uppercasing neither starts with `PMC`
nor consists only of digits. -/
theorem validate_pmc_id_spec :
    (∀ s : String, s.toList.all Char.isDigit = true →
      validate_pmc_id s = Except.ok ()) ∧
    (∀ pre ds : List Char, pre.map Char.toUpper = ['P', 'M', 'C'] →
      ds ≠ [] → ds.all Char.isDigit = true →
      validate_pmc_id (String.mk (pre ++ ds)) = Except.ok ()) ∧
    (∀ s : String, (∃ c ∈ s.toList.map Char.toUpper, validChar c = false) →
      ∃ e, validate_pmc_id s = Except.error e) ∧
    (∀ s : String, startsWithPMC (s.toList.map Char.toUpper) = true →
      pyIsDigit ((s.toList.map Char.toUpper).drop 3) = false →
      ∃ e, validate_pmc_id s = Except.error e) ∧
    (∀ s : String, startsWithPMC (s.toList.map Char.toUpper) = false →
      (s.toList.map Char.toUpper).all Char.isDigit = false →
      ∃ e, validate_pmc_id s = Except.error e) := by
  refine ⟨?_, ?_, ?_, ?_, ?_⟩
  · intro s h
    show checkPmcUpper (s.toList.map Char.toUpper) = Except.ok ()
    rw [map_toUpper_of_digits h]
    refine checkPmcUpper_ok_iff.mpr ⟨?_, ?_, fun _ => h⟩
    · rw [List.all_eq_true] at h ⊢
      intro c hc
      simp [validChar, h c hc]
    · intro hstart
      rw [startsWithPMC_of_digits h] at hstart
      exact absurd hstart (by simp)
  · intro pre ds hpre hds hdig
    show checkPmcUpper ((String.mk (pre ++ ds)).toList.map Char.toUpper) = Except.ok ()
    rw [show (String.mk (pre ++ ds)).toList = pre ++ ds from rfl,
      List.map_append, hpre, map_toUpper_of_digits hdig]
    refine checkPmcUpper_ok_iff.mpr ⟨?_, ?_, ?_⟩
    · rw [List.all_eq_true]
      intro c hc
      rcases List.mem_append.mp hc with h1 | h2
      · have : c = 'P' ∨ c = 'M' ∨ c = 'C' := by simpa using h1
        rcases this with h | h | h <;> simp [validChar, h]
      · simp [validChar, List.all_eq_true.mp hdig c h2]
    · intro _
      have hdrop : (['P', 'M', 'C'] ++ ds).drop 3 = ds := rfl
      rw [hdrop]
      simp [pyIsDigit, hds, hdig]
    · intro hstart
      have : startsWithPMC (['P', 'M', 'C'] ++ ds) = true := rfl
      rw [this] at hstart
      exact absurd hstart (by simp)
  · intro s h
    rcases checkPmcUpper_ok_or_error (s.toList.map Char.toUpper) with hok | herr
    · exfalso
      rcases h with ⟨c, hc, hcv⟩
      have := (checkPmcUpper_ok_iff.mp hok).1
      rw [List.all_eq_true] at this
      rw [this c hc] at hcv
      exact absurd hcv (by simp)
    · exact herr
  · intro s hstart hdig
    rcases checkPmcUpper_ok_or_error (s.toList.map Char.toUpper) with hok | herr
    · exfalso
      have := (checkPmcUpper_ok_iff.mp hok).2.1 hstart
      rw [this] at hdig
      exact absurd hdig (by simp)
    · exact herr
  · intro s hstart hdig
    rcases checkPmcUpper_ok_or_error (s.toList.map Char.toUpper) with hok | herr
    · exfalso
      have := (checkPmcUpper_ok_iff.mp hok).2.2 hstart
      rw [this] at hdig
      exact absurd hdig (by simp)
    · exact herr

theorem validate_pmc_id_spec_witness :
    validate_pmc_id "11127317" = Except.ok () ∧
    validate_pmc_id (String.mk ("pMc".toList ++ "77".toList)) = Except.ok () ∧
    (∃ e, validate_pmc_id "PMX1" = Except.error e) ∧
    (∃ e, validate_pmc_id "PMC" = Except.error e) ∧
    (∃ e, validate_pmc_id "12P3" = Except.error e) :=
  ⟨validate_pmc_id_spec.1 "11127317" (by decide),
    validate_pmc_id_spec.2.1 "pMc".toList "77".toList (by decide) (by decide) (by decide),
    validate_pmc_id_spec.2.2.1 "PMX1" (by decide),
    validate_pmc_id_spec.2.2.2.1 "PMC" (by decide) (by decide),
    validate_pmc_id_spec.2.2.2.2 "12P3" (by decide) (by decide)⟩

/-! ## CLI and run-order theorems -/

/-- C5 fails on the code: in the `src/felix/cli.py` variant, where `--output`
is optional and its help text promises standard output when omitted, running
with a valid identifier and email but no output flag raises `TypeError` from
`Path(None)` (before validation even runs); the report is never written to
standard output. -/
theorem cliMain_no_output_errors :
    cliMain "PMC1312717" "user@example.com" none =
      Except.error "TypeError: argument should be a str or an os.PathLike object where __fspath__ returns a str, not <class 'NoneType'>" := rfl

/-- C7: whenever either validator rejects its input, `Document.__init__`
raises before `fetch_pmc_xml` runs, so the whole run performs no network
call at all — no article fetch and no registry query. -/
theorem mainRun_no_network_on_invalid (pmc_id email : String)
    (h : (∃ e, validate_email email = Except.error e) ∨
      (∃ e, validate_pmc_id pmc_id = Except.error e)) :
    (mainRun pmc_id email).1 = [] ∧ (mainRun pmc_id email).2.isSome = true := by
  unfold mainRun documentInit
  rcases hem : validate_email email with e | u
  · simp
  · rcases hpm : checkPmcUpper (List.map Char.toUpper pmc_id.data) with e | u'
    · simp [hpm]
    · exfalso
      rcases h with ⟨e, he⟩ | ⟨e, he⟩
      · rw [hem] at he
        exact Except.noConfusion he
      · have : validate_pmc_id pmc_id = Except.ok u' := hpm
        rw [this] at he
        exact Except.noConfusion he

theorem mainRun_no_network_on_invalid_witness :
    (mainRun "PMC11127317" "missingat.com").1 = [] ∧
      (mainRun "PMC11127317" "missingat.com").2.isSome = true :=
  mainRun_no_network_on_invalid "PMC11127317" "missingat.com"
    (Or.inl ⟨_, validate_email_spec.2.1 "missingat.com" (by decide)⟩)

/-! ## Lemmas and theorems about `fetch_gene_metadata` -/

theorem mkRows_length (assembly : String) (coords : List Coord)
    (aliases : List String) (hgnc_id : String) (symbol name : Option String)
    (ensembl : Option String) (disease : String) :
    (mkRows assembly coords aliases hgnc_id symbol name ensembl disease).length =
      coords.length * aliases.length := by
  induction coords with
  | nil => simp [mkRows]
  | cons c cs ih =>
    simp only [mkRows, List.flatMap_cons, List.length_append, List.length_map] at ih ⊢
    rw [ih]
    simp only [List.length_cons]
    ring

theorem mkRows_alias_mem {assembly : String} {coords : List Coord}
    {aliases : List String} {hgnc_id : String} {symbol name : Option String}
    {ensembl : Option String} {disease : String} {row : Row}
    (h : row ∈ mkRows assembly coords aliases hgnc_id symbol name ensembl disease) :
    row.«alias» ∈ aliases := by
  simp only [mkRows, List.mem_flatMap, List.mem_map] at h
  rcases h with ⟨c, _, a, ha, rfl⟩
  exact ha

theorem processRecord_both_answered
    (hgncDocs : String → List HgncDoc) (mygeneHits : String → List MyGeneHit)
    {g : String} (d : String) {gene_record : HgncDoc} {drest : List HgncDoc}
    {hit : MyGeneHit} {hrest : List MyGeneHit} {p38 p19 : GenCoords}
    (hD : hgncDocs g = gene_record :: drest)
    (hH : mygeneHits g = hit :: hrest)
    (h38 : hit.genomic_pos = some p38)
    (h19 : hit.genomic_pos_hg19 = some p19) :
    processRecord hgncDocs mygeneHits (g, d) =
      Except.ok
        (mkRows "hg38" (normCoords p38) (normAlias gene_record.alias_symbol) g
            gene_record.symbol gene_record.name gene_record.ensembl_gene_id d ++
          mkRows "hg19" (normCoords p19) (normAlias gene_record.alias_symbol) g
            gene_record.symbol gene_record.name gene_record.ensembl_gene_id d) := by
  unfold processRecord
  simp only [hD, hH, h38, h19]

/-- C1: for a record answered by both registries (with both coordinate keys
present), `fetch_gene_metadata` emits exactly one row per
(assembly, coordinate entry, alias) combination: the row count is
`|hg38 coordinates| · |aliases| + |hg19 coordinates| · |aliases|`. -/
theorem fetch_gene_metadata_cross_product
    (hgncDocs : String → List HgncDoc) (mygeneHits : String → List MyGeneHit)
    (g d : String) (gene_record : HgncDoc) (drest : List HgncDoc)
    (hit : MyGeneHit) (hrest : List MyGeneHit) (p38 p19 : GenCoords)
    (hD : hgncDocs g = gene_record :: drest)
    (hH : mygeneHits g = hit :: hrest)
    (h38 : hit.genomic_pos = some p38)
    (h19 : hit.genomic_pos_hg19 = some p19) :
    ∃ rows, fetch_gene_metadata hgncDocs mygeneHits [(g, d)] = Except.ok rows ∧
      rows.length =
        (normCoords p38).length * (normAlias gene_record.alias_symbol).length +
          (normCoords p19).length * (normAlias gene_record.alias_symbol).length := by
  have hp := processRecord_both_answered hgncDocs mygeneHits d hD hH h38 h19
  refine ⟨mkRows "hg38" (normCoords p38) (normAlias gene_record.alias_symbol) g
      gene_record.symbol gene_record.name gene_record.ensembl_gene_id d ++
    mkRows "hg19" (normCoords p19) (normAlias gene_record.alias_symbol) g
      gene_record.symbol gene_record.name gene_record.ensembl_gene_id d, ?_, ?_⟩
  · show (match processRecord hgncDocs mygeneHits (g, d) with
        | Except.error e => Except.error e
        | Except.ok rows =>
          match fetch_gene_metadata hgncDocs mygeneHits [] with
          | Except.error e => Except.error e
          | Except.ok more => Except.ok (rows ++ more)) = _
    rw [hp]
    simp [fetch_gene_metadata]
  · simp [List.length_append, mkRows_length]

theorem fetch_gene_metadata_cross_product_witness :
    ∃ rows,
      fetch_gene_metadata (fun _ => [demoDoc]) (fun _ => [demoHit])
          [("HGNC:1101", "breast cancer")] = Except.ok rows ∧
        rows.length = 2 := by
  rcases fetch_gene_metadata_cross_product (fun _ => [demoDoc]) (fun _ => [demoHit])
      "HGNC:1101" "breast cancer" demoDoc [] demoHit []
      (GenCoords.many [demoCoord]) (GenCoords.many []) rfl rfl rfl rfl with
    ⟨rows, h1, h2⟩
  exact ⟨rows, h1, by simpa [normCoords, normAlias, demoDoc] using h2⟩

/-- C3: a record for which either registry answered with no result
contributes no rows and raises nothing: its body is a silent no-op and the
overall output is exactly that of the remaining records. -/
theorem fetch_gene_metadata_silent_drop
    (hgncDocs : String → List HgncDoc) (mygeneHits : String → List MyGeneHit)
    (r : String × String) (pre post : List (String × String))
    (h : hgncDocs r.1 = [] ∨ mygeneHits r.1 = []) :
    processRecord hgncDocs mygeneHits r = Except.ok [] ∧
      fetch_gene_metadata hgncDocs mygeneHits (pre ++ r :: post) =
        fetch_gene_metadata hgncDocs mygeneHits (pre ++ post) := by
  have hskip : processRecord hgncDocs mygeneHits r = Except.ok [] := by
    unfold processRecord
    rcases h with h | h
    all_goals rw [h]
    all_goals cases hd : hgncDocs r.1 with
      | nil => rfl
      | cons doc drest => rfl
  refine ⟨hskip, ?_⟩
  induction pre with
  | nil =>
    show (match processRecord hgncDocs mygeneHits r with
        | Except.error e => Except.error e
        | Except.ok rows =>
          match fetch_gene_metadata hgncDocs mygeneHits post with
          | Except.error e => Except.error e
          | Except.ok more => Except.ok (rows ++ more)) = _
    rw [hskip]
    rcases hf : fetch_gene_metadata hgncDocs mygeneHits post with e | rows <;>
      simp [hf]
  | cons p pre ih =>
    show (match processRecord hgncDocs mygeneHits p with
        | Except.error e => Except.error e
        | Except.ok rows =>
          match fetch_gene_metadata hgncDocs mygeneHits (pre ++ r :: post) with
          | Except.error e => Except.error e
          | Except.ok more => Except.ok (rows ++ more)) = _
    rw [ih]
    rfl

theorem fetch_gene_metadata_silent_drop_witness :
    processRecord (fun _ => [demoDoc]) (fun _ => []) ("HGNC:1101", "breast cancer") =
        Except.ok [] ∧
      fetch_gene_metadata (fun _ => [demoDoc]) (fun _ => [])
          ([] ++ ("HGNC:1101", "breast cancer") :: []) =
        fetch_gene_metadata (fun _ => [demoDoc]) (fun _ => []) ([] ++ []) :=
  fetch_gene_metadata_silent_drop (fun _ => [demoDoc]) (fun _ => [])
    ("HGNC:1101", "breast cancer") [] [] (Or.inr rfl)

theorem processRecord_keyerror
    (hgncDocs : String → List HgncDoc) (mygeneHits : String → List MyGeneHit)
    {r : String × String} {gene_record : HgncDoc} {drest : List HgncDoc}
    {hit : MyGeneHit} {hrest : List MyGeneHit}
    (hD : hgncDocs r.1 = gene_record :: drest)
    (hH : mygeneHits r.1 = hit :: hrest)
    (hmiss : hit.genomic_pos = none ∨ hit.genomic_pos_hg19 = none) :
    ∃ e, processRecord hgncDocs mygeneHits r = Except.error e := by
  unfold processRecord
  simp only [hD, hH]
  rcases hmiss with h | h
  · rw [h]
    exact ⟨_, rfl⟩
  · rw [h]
    cases h38 : hit.genomic_pos with
    | none => exact ⟨_, rfl⟩
    | some p38 => exact ⟨_, rfl⟩

/-- C8: if both registries answered for some record but the first mygene hit
lacks `genomic_pos` or `genomic_pos_hg19`, the subscript access raises
`KeyError` and the whole `fetch_gene_metadata` run aborts with that error —
the absence is not normalized to an empty coordinate list. -/
theorem fetch_gene_metadata_keyerror
    (hgncDocs : String → List HgncDoc) (mygeneHits : String → List MyGeneHit)
    (records : List (String × String)) (r : String × String)
    (gene_record : HgncDoc) (drest : List HgncDoc)
    (hit : MyGeneHit) (hrest : List MyGeneHit)
    (hmem : r ∈ records)
    (hD : hgncDocs r.1 = gene_record :: drest)
    (hH : mygeneHits r.1 = hit :: hrest)
    (hmiss : hit.genomic_pos = none ∨ hit.genomic_pos_hg19 = none) :
    ∃ e, fetch_gene_metadata hgncDocs mygeneHits records = Except.error e := by
  induction records with
  | nil => exact absurd hmem (List.not_mem_nil r)
  | cons p rest ih =>
    show ∃ e, (match processRecord hgncDocs mygeneHits p with
        | Except.error e => Except.error e
        | Except.ok rows =>
          match fetch_gene_metadata hgncDocs mygeneHits rest with
          | Except.error e => Except.error e
          | Except.ok more => Except.ok (rows ++ more)) = Except.error e
    rcases hp : processRecord hgncDocs mygeneHits p with e | rows
    · exact ⟨e, rfl⟩
    · rcases List.mem_cons.mp hmem with rfl | hmem'
      · rcases processRecord_keyerror hgncDocs mygeneHits hD hH hmiss with ⟨e, he⟩
        rw [hp] at he
        exact Except.noConfusion he
      · rcases ih hmem' with ⟨e, he⟩
        rw [he]
        exact ⟨e, rfl⟩

theorem fetch_gene_metadata_keyerror_witness :
    ∃ e, fetch_gene_metadata (fun _ => [demoDoc]) (fun _ => [demoHitNoHg19])
        [("HGNC:1101", "breast cancer")] = Except.error e :=
  fetch_gene_metadata_keyerror (fun _ => [demoDoc]) (fun _ => [demoHitNoHg19])
    [("HGNC:1101", "breast cancer")] ("HGNC:1101", "breast cancer")
    demoDoc [] demoHitNoHg19 [] (List.mem_singleton.mpr rfl) rfl rfl (Or.inr rfl)

/-- C10: when the primary-registry record has no `alias_symbol` key, the
`.get("alias_symbol", "")` default makes the alias list the one-element list
`[""]`, so the record still yields exactly one row per
(assembly, coordinate entry), each with an empty alias field. -/
theorem fetch_gene_metadata_missing_alias
    (hgncDocs : String → List HgncDoc) (mygeneHits : String → List MyGeneHit)
    (g d : String) (gene_record : HgncDoc) (drest : List HgncDoc)
    (hit : MyGeneHit) (hrest : List MyGeneHit) (p38 p19 : GenCoords)
    (hD : hgncDocs g = gene_record :: drest)
    (halias : gene_record.alias_symbol = none)
    (hH : mygeneHits g = hit :: hrest)
    (h38 : hit.genomic_pos = some p38)
    (h19 : hit.genomic_pos_hg19 = some p19) :
    ∃ rows, fetch_gene_metadata hgncDocs mygeneHits [(g, d)] = Except.ok rows ∧
      rows.length = (normCoords p38).length + (normCoords p19).length ∧
      ∀ row ∈ rows, row.«alias» = "" := by
  have hp := processRecord_both_answered hgncDocs mygeneHits d hD hH h38 h19
  rw [halias] at hp
  refine ⟨mkRows "hg38" (normCoords p38) (normAlias none) g
      gene_record.symbol gene_record.name gene_record.ensembl_gene_id d ++
    mkRows "hg19" (normCoords p19) (normAlias none) g
      gene_record.symbol gene_record.name gene_record.ensembl_gene_id d, ?_, ?_, ?_⟩
  · show (match processRecord hgncDocs mygeneHits (g, d) with
        | Except.error e => Except.error e
        | Except.ok rows =>
          match fetch_gene_metadata hgncDocs mygeneHits [] with
          | Except.error e => Except.error e
          | Except.ok more => Except.ok (rows ++ more)) = _
    rw [hp]
    simp [fetch_gene_metadata]
  · simp [List.length_append, mkRows_length, normAlias]
  · intro row hrow
    rcases List.mem_append.mp hrow with h | h
    · have := mkRows_alias_mem h
      simpa [normAlias] using this
    · have := mkRows_alias_mem h
      simpa [normAlias] using this

theorem fetch_gene_metadata_missing_alias_witness :
    ∃ rows, fetch_gene_metadata (fun _ => [demoDocNoAlias]) (fun _ => [demoHit])
        [("HGNC:1101", "breast cancer")] = Except.ok rows ∧
      rows.length = 1 ∧ ∀ row ∈ rows, row.«alias» = "" := by
  rcases fetch_gene_metadata_missing_alias (fun _ => [demoDocNoAlias]) (fun _ => [demoHit])
      "HGNC:1101" "breast cancer" demoDocNoAlias [] demoHit []
      (GenCoords.many [demoCoord]) (GenCoords.many []) rfl rfl rfl rfl rfl with
    ⟨rows, h1, h2, h3⟩
  exact ⟨rows, h1, by simpa [normCoords] using h2, h3⟩

/-! ## Lemmas about the extractor's set and map model -/

theorem mem_setInsert {s : List String} {x y : String} :
    y ∈ setInsert s x ↔ y ∈ s ∨ y = x := by
  unfold setInsert
  by_cases h : x ∈ s
  · simp only [if_pos h]
    constructor
    · exact Or.inl
    · rintro (hy | rfl)
      · exact hy
      · exact h
  · simp [if_neg h]

theorem nodup_setInsert {s : List String} (x : String) (h : s.Nodup) :
    (setInsert s x).Nodup := by
  unfold setInsert
  by_cases hx : x ∈ s
  · simpa [hx] using h
  · simp [hx, List.nodup_append, h]

theorem mem_setUnion {s t : List String} {y : String} :
    y ∈ setUnion s t ↔ y ∈ s ∨ y ∈ t := by
  induction t generalizing s with
  | nil => simp [setUnion]
  | cons a t ih =>
    show y ∈ setUnion (setInsert s a) t ↔ _
    rw [ih, mem_setInsert]
    simp only [List.mem_cons]
    tauto

theorem nodup_setUnion {s : List String} (t : List String) (h : s.Nodup) :
    (setUnion s t).Nodup := by
  induction t generalizing s with
  | nil => exact h
  | cons a t ih =>
    show (setUnion (setInsert s a) t).Nodup
    exact ih (nodup_setInsert a h)

theorem lookupKey_updateKey_self (m : List (String × List String))
    (k : String) (ds : List String) :
    lookupKey (updateKey m k ds) k =
      some (setUnion ((lookupKey m k).getD []) ds) := by
  induction m with
  | nil => simp [updateKey, lookupKey]
  | cons p m ih =>
    rcases p with ⟨k', v⟩
    by_cases h : k' = k
    · simp [updateKey, lookupKey, if_pos h, h]
    · simp [updateKey, lookupKey, if_neg h, ih]

theorem lookupKey_updateKey_ne (m : List (String × List String))
    {k k' : String} (ds : List String) (h : k' ≠ k) :
    lookupKey (updateKey m k ds) k' = lookupKey m k' := by
  induction m with
  | nil => simp [updateKey, lookupKey, if_neg (Ne.symm h)]
  | cons p m ih =>
    rcases p with ⟨k'', v⟩
    by_cases h2 : k'' = k
    · subst h2
      simp [updateKey, lookupKey, if_neg (Ne.symm h)]
    · by_cases h3 : k'' = k'
      · simp [updateKey, lookupKey, if_neg h2, if_pos h3]
      · simp [updateKey, lookupKey, if_neg h2, if_neg h3, ih]

theorem mem_keysOf_updateKey {m : List (String × List String)}
    {k k' : String} {ds : List String} :
    k' ∈ keysOf (updateKey m k ds) ↔ k' ∈ keysOf m ∨ k' = k := by
  induction m with
  | nil => simp [updateKey, keysOf]
  | cons p m ih =>
    rcases p with ⟨k'', v⟩
    by_cases h : k'' = k
    · subst h
      simp [updateKey, keysOf]
      tauto
    · simp only [updateKey, if_neg h, keysOf, List.map_cons, List.mem_cons] at ih ⊢
      rw [ih]
      tauto

theorem nodup_keysOf_updateKey {m : List (String × List String)}
    (k : String) (ds : List String) (h : (keysOf m).Nodup) :
    (keysOf (updateKey m k ds)).Nodup := by
  induction m with
  | nil => simp [updateKey, keysOf]
  | cons p m ih =>
    rcases p with ⟨k'', v⟩
    simp only [keysOf, List.map_cons, List.nodup_cons] at h
    by_cases h2 : k'' = k
    · subst h2
      simpa [updateKey, keysOf, List.nodup_cons] using h
    · simp only [updateKey, if_neg h2, keysOf, List.map_cons, List.nodup_cons]
      refine ⟨?_, ih h.2⟩
      intro hmem
      rcases (mem_keysOf_updateKey).mp hmem with hm | rfl
      · exact h.1 hm
      · exact h2 rfl

theorem lookupKey_eq_none_iff {m : List (String × List String)} {k : String} :
    lookupKey m k = none ↔ k ∉ keysOf m := by
  induction m with
  | nil => simp [lookupKey, keysOf]
  | cons p m ih =>
    rcases p with ⟨k', v⟩
    by_cases h : k' = k
    · simp [lookupKey, if_pos h, keysOf, h]
    · simp [lookupKey, if_neg h, keysOf, ih, Ne.symm h]

theorem lookupKey_of_mem_nodup {m : List (String × List String)}
    {k : String} {ds : List String} (hn : (keysOf m).Nodup)
    (hm : (k, ds) ∈ m) : lookupKey m k = some ds := by
  induction m with
  | nil => exact absurd hm (List.not_mem_nil _)
  | cons p m ih =>
    rcases p with ⟨k', v⟩
    simp only [keysOf, List.map_cons, List.nodup_cons] at hn
    rcases List.mem_cons.mp hm with heq | hmem
    · rcases Prod.mk.injEq .. ▸ heq with ⟨rfl, rfl⟩
      simp [lookupKey]
    · by_cases h : k' = k
      · subst h
        exact absurd (by simpa [keysOf] using List.mem_map_of_mem Prod.fst hmem) hn.1
      · simpa [lookupKey, if_neg h] using ih hn.2 hmem

theorem foldl_updateKey_keys (ids : List String) (F : List String)
    (m : List (String × List String)) (i : String) :
    i ∈ keysOf (ids.foldl (fun acc j => updateKey acc j F) m) ↔
      i ∈ keysOf m ∨ i ∈ ids := by
  induction ids generalizing m with
  | nil => simp
  | cons a ids ih =>
    show i ∈ keysOf (ids.foldl _ (updateKey m a F)) ↔ _
    rw [ih, mem_keysOf_updateKey]
    simp only [List.mem_cons]
    tauto

theorem foldl_updateKey_nodup_keys (ids : List String) (F : List String)
    (m : List (String × List String)) (h : (keysOf m).Nodup) :
    (keysOf (ids.foldl (fun acc j => updateKey acc j F) m)).Nodup := by
  induction ids generalizing m with
  | nil => exact h
  | cons a ids ih => exact ih _ (nodup_keysOf_updateKey a F h)

theorem foldl_updateKey_lookup (ids : List String) (F : List String)
    (m : List (String × List String)) (i : String) (ds' : List String)
    (h : lookupKey (ids.foldl (fun acc j => updateKey acc j F) m) i = some ds')
    (d : String) :
    d ∈ ds' ↔ (∃ ds, lookupKey m i = some ds ∧ d ∈ ds) ∨ (i ∈ ids ∧ d ∈ F) := by
  induction ids generalizing m with
  | nil =>
    simp only [List.foldl_nil] at h
    simp [h]
  | cons a ids ih =>
    rw [List.foldl_cons] at h
    rw [ih _ h]
    by_cases hia : i = a
    · subst hia
      have key : (∃ ds, lookupKey (updateKey m i F) i = some ds ∧ d ∈ ds) ↔
          (∃ ds, lookupKey m i = some ds ∧ d ∈ ds) ∨ d ∈ F := by
        rw [lookupKey_updateKey_self]
        constructor
        · rintro ⟨ds, hds, hd⟩
          have heq : setUnion ((lookupKey m i).getD []) F = ds :=
            Option.some_inj.mp hds
          subst heq
          rw [mem_setUnion] at hd
          rcases hd with hd | hd
          · rcases hl : lookupKey m i with _ | v
            · rw [hl] at hd
              simp at hd
            · rw [hl] at hd
              exact Or.inl ⟨v, rfl, hd⟩
          · exact Or.inr hd
        · intro hcase
          refine ⟨_, rfl, ?_⟩
          rw [mem_setUnion]
          rcases hcase with ⟨ds, hds, hd⟩ | hd
          · rw [hds]
            exact Or.inl hd
          · exact Or.inr hd
      constructor
      · rintro (h1 | ⟨hi, hd⟩)
        · rcases key.mp h1 with h2 | h2
          · exact Or.inl h2
          · exact Or.inr ⟨List.mem_cons_self _ _, h2⟩
        · exact Or.inr ⟨List.mem_cons_of_mem _ hi, hd⟩
      · rintro (h1 | ⟨hi, hd⟩)
        · exact Or.inl (key.mpr (Or.inl h1))
        · exact Or.inl (key.mpr (Or.inr hd))
    · rw [lookupKey_updateKey_ne _ _ hia]
      have hmem : i ∈ a :: ids ↔ i ∈ ids := by simp [List.mem_cons, hia]
      rw [hmem]

theorem foldl_updateKey_value_nodup (ids : List String) (F : List String)
    (m : List (String × List String))
    (h : ∀ i ds, lookupKey m i = some ds → ds.Nodup)
    (i : String) (ds' : List String)
    (h' : lookupKey (ids.foldl (fun acc j => updateKey acc j F) m) i = some ds') :
    ds'.Nodup := by
  induction ids generalizing m with
  | nil => exact h _ _ h'
  | cons a ids ih =>
    rw [List.foldl_cons] at h'
    refine ih _ ?_ h'
    intro j ds hds
    by_cases hja : j = a
    · subst hja
      rw [lookupKey_updateKey_self] at hds
      rcases Option.some.injEq .. ▸ hds with rfl
      refine nodup_setUnion _ ?_
      rcases hl : lookupKey m j with _ | v
      · simp
      · simpa using h _ _ hl
    · rw [lookupKey_updateKey_ne _ _ hja] at hds
      exact h _ _ hds

theorem occursIn_append_singleton (pre : List Sentence) (s : Sentence) (i : String) :
    occursIn (pre ++ [s]) i ↔ occursIn pre i ∨ i ∈ sentenceIds s := by
  simp only [occursIn, List.mem_append, List.mem_singleton]
  constructor
  · rintro ⟨s', hs' | rfl, hi⟩
    · exact Or.inl ⟨s', hs', hi⟩
    · exact Or.inr hi
  · rintro (⟨s', hs', hi⟩ | hi)
    · exact ⟨s', Or.inl hs', hi⟩
    · exact ⟨s, Or.inr rfl, hi⟩

theorem pairedIn_append_singleton (pre : List Sentence) (s : Sentence) (i d : String) :
    pairedIn (pre ++ [s]) i d ↔
      pairedIn pre i d ∨ (i ∈ sentenceIds s ∧ d ∈ sentDiseases s) := by
  simp only [pairedIn, List.mem_append, List.mem_singleton]
  constructor
  · rintro ⟨s', hs' | rfl, hi, hd⟩
    · exact Or.inl ⟨s', hs', hi, hd⟩
    · exact Or.inr ⟨hi, hd⟩
  · rintro (⟨s', hs', hi, hd⟩ | ⟨hi, hd⟩)
    · exact ⟨s', Or.inl hs', hi, hd⟩
    · exact ⟨s, Or.inr rfl, hi, hd⟩

theorem MapInv_nil : MapInv [] [] := by
  refine ⟨List.nodup_nil, ?_, ?_, ?_⟩
  · intro i
    simp [lookupKey, occursIn]
  · intro i ds h
    simp [lookupKey] at h
  · intro i ds h
    simp [lookupKey] at h

theorem MapInv_processSentence {pre : List Sentence}
    {m : List (String × List String)} (s : Sentence) (hInv : MapInv pre m) :
    MapInv (pre ++ [s]) (processSentence m s) := by
  rcases hInv with ⟨hK, hO, hN, hP⟩
  unfold processSentence
  by_cases hids : (sentenceIds s).isEmpty
  · rw [if_pos hids]
    have hempty : sentenceIds s = [] := List.isEmpty_iff.mp hids
    refine ⟨hK, ?_, hN, ?_⟩
    · intro i
      rw [hO, occursIn_append_singleton]
      simp [hempty]
    · intro i ds h d
      rw [hP i ds h, pairedIn_append_singleton]
      simp [hempty]
  · rw [if_neg hids]
    have hsome : ∀ i, (∃ ds,
        lookupKey ((sentenceIds s).foldl (fun acc j => updateKey acc j (sentDiseases s)) m) i
          = some ds) ↔ (∃ ds, lookupKey m i = some ds) ∨ i ∈ sentenceIds s := by
      intro i
      constructor
      · rintro ⟨ds, hds⟩
        by_cases hi : i ∈ sentenceIds s
        · exact Or.inr hi
        · refine Or.inl ?_
          rcases hl : lookupKey m i with _ | v
          · exfalso
            have : i ∉ keysOf m := lookupKey_eq_none_iff.mp hl
            have hk2 : i ∈ keysOf ((sentenceIds s).foldl (fun acc j => updateKey acc j (sentDiseases s)) m) := by
              rcases hl2 : lookupKey ((sentenceIds s).foldl (fun acc j => updateKey acc j (sentDiseases s)) m) i with _ | v2
              · rw [hl2] at hds
                exact Option.noConfusion hds
              · by_contra hnot
                rw [← lookupKey_eq_none_iff] at hnot
                rw [hnot] at hl2
                exact Option.noConfusion hl2
            rcases (foldl_updateKey_keys _ _ _ _).mp hk2 with h2 | h2
            · exact this h2
            · exact hi h2
          · exact ⟨v, rfl⟩
      · intro hcase
        have : i ∈ keysOf ((sentenceIds s).foldl (fun acc j => updateKey acc j (sentDiseases s)) m) := by
          rw [foldl_updateKey_keys]
          rcases hcase with ⟨ds, hds⟩ | hi
          · exact Or.inl (by
              by_contra hnot
              rw [← lookupKey_eq_none_iff] at hnot
              rw [hnot] at hds
              exact Option.noConfusion hds)
          · exact Or.inr hi
        rcases hl : lookupKey ((sentenceIds s).foldl (fun acc j => updateKey acc j (sentDiseases s)) m) i with _ | v
        · exact absurd (lookupKey_eq_none_iff.mp hl) (by simpa using this)
        · exact ⟨v, rfl⟩
    refine ⟨foldl_updateKey_nodup_keys _ _ _ hK, ?_, ?_, ?_⟩
    · intro i
      rw [hsome, hO, occursIn_append_singleton]
    · intro i ds h
      exact foldl_updateKey_value_nodup _ _ _ hN _ _ h
    · intro i ds h d
      rw [foldl_updateKey_lookup _ _ _ _ _ h, pairedIn_append_singleton]
      constructor
      · rintro (⟨ds0, hds0, hd⟩ | ⟨hi, hd⟩)
        · exact Or.inl ((hP _ _ hds0 d).mp hd)
        · exact Or.inr ⟨hi, hd⟩
      · rintro (hp | ⟨hi, hd⟩)
        · have hocc : occursIn pre i := by
            rcases hp with ⟨s', hs', hi', _⟩
            exact ⟨s', hs', hi'⟩
          rcases hO i |>.mpr hocc with ⟨ds0, hds0⟩
          exact Or.inl ⟨ds0, hds0, (hP _ _ hds0 d).mpr hp⟩
        · exact Or.inr ⟨hi, hd⟩

theorem MapInv_foldl (sents : List Sentence) :
    ∀ (pre : List Sentence) (m : List (String × List String)), MapInv pre m →
      MapInv (pre ++ sents) (sents.foldl processSentence m) := by
  induction sents with
  | nil =>
    intro pre m h
    simpa using h
  | cons s rest ih =>
    intro pre m h
    have h2 := MapInv_processSentence s h
    have h3 := ih (pre ++ [s]) _ h2
    simpa [List.append_assoc] using h3

theorem buildMap_inv (sents : List Sentence) : MapInv sents (buildMap sents) := by
  have := MapInv_foldl sents [] [] MapInv_nil
  simpa [buildMap] using this

theorem fst_mem_of_mem_flattenMap {m : List (String × List String)}
    {i d : String} (h : (i, d) ∈ flattenMap m) : i ∈ keysOf m := by
  induction m with
  | nil => simp [flattenMap] at h
  | cons p m ih =>
    rcases p with ⟨k, ds⟩
    simp only [flattenMap, List.mem_append] at h
    rcases h with h | h
    · rcases hds : ds.isEmpty with hf | ht
      · rw [hds] at h
        simp only [if_false, Bool.false_eq_true] at h
        rcases List.mem_map.mp h with ⟨d0, _, heq⟩
        rcases Prod.mk.injEq .. ▸ heq with ⟨rfl, rfl⟩
        simp [keysOf]
      · rw [hds] at h
        simp only [if_true] at h
        rcases List.mem_singleton.mp h with heq
        rcases Prod.mk.injEq .. ▸ heq with ⟨rfl, rfl⟩
        simp [keysOf]
    · simp only [keysOf, List.map_cons, List.mem_cons]
      exact Or.inr (ih h)

theorem mem_flattenMap {m : List (String × List String)}
    (hK : (keysOf m).Nodup) (i d : String) :
    (i, d) ∈ flattenMap m ↔
      ∃ ds, lookupKey m i = some ds ∧ (d ∈ ds ∨ (ds = [] ∧ d = "")) := by
  induction m with
  | nil => simp [flattenMap, lookupKey]
  | cons p m ih =>
    rcases p with ⟨k, ds⟩
    simp only [keysOf, List.map_cons, List.nodup_cons] at hK
    simp only [flattenMap, List.mem_append]
    by_cases hik : k = i
    · subst hik
      have hlk : lookupKey ((k, ds) :: m) k = some ds := by simp [lookupKey]
      rw [hlk]
      constructor
      · rintro (h | h)
        · rcases hds : ds.isEmpty with _ | _
          · rw [hds] at h
            simp only [Bool.false_eq_true, if_false] at h
            rcases List.mem_map.mp h with ⟨d0, hd0, heq⟩
            have hd2 : d0 = d := congrArg Prod.snd heq
            subst hd2
            exact ⟨ds, rfl, Or.inl hd0⟩
          · rw [hds] at h
            simp only [if_true] at h
            have heq := List.mem_singleton.mp h
            have hd2 : "" = d := congrArg Prod.snd heq.symm
            exact ⟨ds, rfl, Or.inr ⟨List.isEmpty_iff.mp hds, hd2.symm⟩⟩
        · exact absurd (fst_mem_of_mem_flattenMap h) hK.1
      · rintro ⟨ds0, hds0, hrest⟩
        have heq : ds = ds0 := Option.some_inj.mp hds0
        subst heq
        rcases hrest with hd | ⟨rfl, rfl⟩
        · refine Or.inl ?_
          have hne : ds.isEmpty = false := by
            rcases ds with _ | ⟨a, t⟩
            · simp at hd
            · simp
          rw [hne]
          simp only [Bool.false_eq_true, if_false]
          exact List.mem_map.mpr ⟨d, hd, rfl⟩
        · exact Or.inl (by simp)
    · have hlk : lookupKey ((k, ds) :: m) i = lookupKey m i := by
        simp [lookupKey, if_neg hik]
      rw [hlk, ← ih hK.2]
      constructor
      · rintro (h | h)
        · exfalso
          rcases hds : ds.isEmpty with _ | _
          · rw [hds] at h
            simp only [Bool.false_eq_true, if_false] at h
            rcases List.mem_map.mp h with ⟨d0, _, heq⟩
            exact hik (congrArg Prod.fst heq)
          · rw [hds] at h
            simp only [if_true] at h
            exact hik (congrArg Prod.fst (List.mem_singleton.mp h).symm)
        · exact h
      · exact Or.inr

theorem nodup_flattenMap {m : List (String × List String)}
    (hK : (keysOf m).Nodup) (hV : ∀ p ∈ m, (p.2 : List String).Nodup) :
    (flattenMap m).Nodup := by
  induction m with
  | nil => simp [flattenMap]
  | cons p m ih =>
    rcases p with ⟨k, ds⟩
    simp only [keysOf, List.map_cons, List.nodup_cons] at hK
    simp only [flattenMap]
    rw [List.nodup_append]
    refine ⟨?_, ih hK.2 (fun q hq => hV q (List.mem_cons_of_mem _ hq)), ?_⟩
    · rcases hds : ds.isEmpty with _ | _
      · simp only [Bool.false_eq_true, if_false]
        have hnd : ds.Nodup := hV (k, ds) (List.mem_cons_self _ _)
        exact hnd.map (fun a b hab => congrArg Prod.snd hab)
      · simp
    · intro q hq hq'
      have hfst : q.1 = k := by
        rcases hds : ds.isEmpty with _ | _ <;> rw [hds] at hq
        · simp only [Bool.false_eq_true, if_false] at hq
          rcases List.mem_map.mp hq with ⟨d0, _, heq⟩
          exact (congrArg Prod.fst heq).symm
        · simp only [if_true] at hq
          rw [List.mem_singleton.mp hq]
      have : q.1 ∈ keysOf m := by
        rcases q with ⟨i, d⟩
        exact fst_mem_of_mem_flattenMap hq'
      rw [hfst] at this
      exact hK.1 this

theorem pairedIn_text_ne_empty {sents : List Sentence} {i d : String}
    (hE : ∀ s ∈ sents, ∀ e ∈ s.ents, e.text ≠ "")
    (hp : pairedIn sents i d) : d ≠ "" := by
  rcases hp with ⟨s, hs, _, hd⟩
  rcases List.mem_map.mp hd with ⟨e, he, rfl⟩
  exact hE s hs e (List.mem_of_mem_filter he)

/-- C2: the extractor's output has no duplicate pairs, and it contains a pair
`(i, d)` with `d ≠ ""` exactly when some sentence contains identifier `i`
and recognizes disease `d` (so the disease set of `i` is the union over all
sentences containing `i` of their recognized diseases — in particular two
identifiers in one sentence both pair with its disease, and a disease found
in one sentence survives a disease-free occurrence in another); it contains
`(i, "")` exactly when `i` occurs but no sentence ever yielded a disease for
it.  The hypothesis states that recognized entities have nonempty text, as
produced by the NLP engine. -/
theorem extract_genes_and_diseases_spec (sents : List Sentence) (i d : String)
    (hE : ∀ s ∈ sents, ∀ e ∈ s.ents, e.text ≠ "") :
    (extract_genes_and_diseases sents).Nodup ∧
      ((i, d) ∈ extract_genes_and_diseases sents ↔
        ((d ≠ "" ∧ pairedIn sents i d) ∨
          (d = "" ∧ occursIn sents i ∧ ∀ d', ¬ pairedIn sents i d'))) := by
  rcases buildMap_inv sents with ⟨hK, hO, hN, hP⟩
  constructor
  · refine nodup_flattenMap hK ?_
    intro p hp
    exact hN p.1 p.2 (lookupKey_of_mem_nodup hK (by rcases p with ⟨a, b⟩; exact hp))
  · rw [show extract_genes_and_diseases sents = flattenMap (buildMap sents) from rfl,
      mem_flattenMap hK]
    constructor
    · rintro ⟨ds, hds, hd | ⟨rfl, rfl⟩⟩
      · have hpd : pairedIn sents i d := (hP _ _ hds d).mp hd
        exact Or.inl ⟨pairedIn_text_ne_empty hE hpd, hpd⟩
      · refine Or.inr ⟨rfl, (hO i).mp ⟨_, hds⟩, ?_⟩
        intro d' hd'
        have : d' ∈ ([] : List String) := (hP _ _ hds d').mpr hd'
        simp at this
    · rintro (⟨hne, hpd⟩ | ⟨rfl, hocc, hnone⟩)
      · have hocc : occursIn sents i := by
          rcases hpd with ⟨s, hs, hi, _⟩
          exact ⟨s, hs, hi⟩
        rcases (hO i).mpr hocc with ⟨ds, hds⟩
        exact ⟨ds, hds, Or.inl ((hP _ _ hds d).mpr hpd)⟩
      · rcases (hO i).mpr hocc with ⟨ds, hds⟩
        refine ⟨ds, hds, Or.inr ⟨?_, rfl⟩⟩
        rcases hds2 : ds with _ | ⟨d0, ds'⟩
        · rfl
        · exfalso
          have : d0 ∈ ds := by rw [hds2]; exact List.mem_cons_self _ _
          exact hnone d0 ((hP _ _ hds d0).mp this)

theorem extract_genes_and_diseases_spec_witness :
    (extract_genes_and_diseases
        [⟨"HGNC:1 and HGNC:22 cause cancer", [⟨"cancer", "DISEASE"⟩]⟩,
          ⟨"HGNC:1 appears again here", []⟩]).Nodup ∧
      (("HGNC:22", "cancer") ∈ extract_genes_and_diseases
          [⟨"HGNC:1 and HGNC:22 cause cancer", [⟨"cancer", "DISEASE"⟩]⟩,
            ⟨"HGNC:1 appears again here", []⟩] ↔
        (("cancer" ≠ "" ∧ pairedIn
            [⟨"HGNC:1 and HGNC:22 cause cancer", [⟨"cancer", "DISEASE"⟩]⟩,
              ⟨"HGNC:1 appears again here", []⟩] "HGNC:22" "cancer") ∨
          ("cancer" = "" ∧ occursIn
              [⟨"HGNC:1 and HGNC:22 cause cancer", [⟨"cancer", "DISEASE"⟩]⟩,
                ⟨"HGNC:1 appears again here", []⟩] "HGNC:22" ∧
            ∀ d', ¬ pairedIn
              [⟨"HGNC:1 and HGNC:22 cause cancer", [⟨"cancer", "DISEASE"⟩]⟩,
                ⟨"HGNC:1 appears again here", []⟩] "HGNC:22" d'))) :=
  extract_genes_and_diseases_spec
    [⟨"HGNC:1 and HGNC:22 cause cancer", [⟨"cancer", "DISEASE"⟩]⟩,
      ⟨"HGNC:1 appears again here", []⟩] "HGNC:22" "cancer" (by decide)
